import Mathlib

/-!
Verification of the natural-language specification of
`CryptoDetectorAI/GitHub/api.py` against a shallow Lean embedding of that
file.  Network responses are modelled as oracle functions passed to each
embedded operation; Python dicts are modelled as association lists
(`PyDict`), where a later `d[k] = v` assignment either overwrites the
first entry with key `k` or appends a fresh entry, exactly as a Python
dict does.  CPython raises `KeyError` on a missing subscript, so dict
subscripts are modelled with `Option`.
-/

/-- A Python dict with string keys and values of type `α`, as an
association list in insertion order. -/
abbrev PyDict (α : Type) := List (String × α)

/-- A flat JSON scalar, used as a concrete value type for the dict model
in evaluated examples. -/
inductive JAtom where
  | null : JAtom
  | bool : Bool → JAtom
  | num : Int → JAtom
  | str : String → JAtom
deriving DecidableEq, Repr

/-- `m[k]` on an association list: the value of the first entry with key
`k`, or `none` (Python: `KeyError`). -/
def lookupA {κ α : Type} [DecidableEq κ] (k : κ) : List (κ × α) → Option α
  | [] => none
  | p :: rest => if k = p.1 then some p.2 else lookupA k rest

/-- `m[k] = v` on an association list: overwrite the entry with key `k`
in place if one exists, otherwise append a fresh entry, as a Python dict
assignment does. -/
def upsert {κ α : Type} [DecidableEq κ] (m : List (κ × α)) (k : κ) (v : α) : List (κ × α) :=
  if m.any (fun p => p.1 = k) then
    m.map (fun p => if p.1 = k then (k, v) else p)
  else
    m ++ [(k, v)]

/-- Effectful map over a list in the `Option` monad, written out
explicitly so that proofs can unfold it; `none` models an uncaught
Python exception aborting the whole computation. -/
def optMapM {α β : Type} (f : α → Option β) : List α → Option (List β)
  | [] => some []
  | a :: rest => (f a).bind (fun b => (optMapM f rest).map (fun bs => b :: bs))

/-- `filter_repo_data` (api.py lines 118-127): project a raw search-result
item down to the seven summary fields, in the source's key order.  A
missing key is a `KeyError`, hence `none`. -/
def filter_repo_data {α : Type} (repo : PyDict α) : Option (PyDict α) := do
  let i ← lookupA "id" repo
  let n ← lookupA "name" repo
  let fn ← lookupA "full_name" repo
  let hu ← lookupA "html_url" repo
  let d ← lookupA "description" repo
  let ua ← lookupA "updated_at" repo
  let lg ← lookupA "language" repo
  pure [ ("id", i), ("name", n), ("full_name", fn), ("html_url", hu),
         ("description", d), ("updated_at", ua), ("language", lg)]

/-- The search URL built in `search_github_repositories` (api.py line 74). -/
def search_url (query sort ord : String) (per_page page : Nat) : String :=
  "https://api.github.com/search/repositories?q=" ++ query ++ "&sort=" ++ sort ++
    "&order=" ++ ord ++ "&per_page=" ++ toString per_page ++ "&page=" ++ toString page

/-- The page loop of `search_github_repositories` (api.py lines 66-79),
over an explicit list of page numbers.  `fetch` maps a request URL to
the `items` list of the decoded JSON response, or `none` for a non-200
response.  Returns the accumulated projected summaries (`none` when a
projection raised) together with the list of URLs actually fetched. -/
def searchLoop {α : Type} (fetch : String → Option (List (PyDict α)))
    (query sort ord : String) (per_page : Nat) :
    List Nat → Option (List (PyDict α)) × List String
  | [] => (some [], [])
  | p :: rest =>
    let u := search_url query sort ord per_page p
    match fetch u with
    | some items =>
      match optMapM filter_repo_data items with
      | some projected =>
        let r := searchLoop fetch query sort ord per_page rest
        (r.1.map (fun acc => projected ++ acc), u :: r.2)
      | none => (none, [u])
    | none => (some [], [u])

/-- `search_github_repositories` (api.py lines 61-81): iterate pages
`1..num_pages`, stopping at the first failed page fetch. -/
def search_github_repositories {α : Type} (fetch : String → Option (List (PyDict α)))
    (query sort ord : String) (per_page num_pages : Nat) :
    Option (List (PyDict α)) × List String :=
  searchLoop fetch query sort ord per_page (List.range' 1 num_pages)

/-- The summaries one successfully fetched page contributes: the page's
items, each projected by `filter_repo_data`. -/
def pageProj {α : Type} (fetch : String → Option (List (PyDict α)))
    (query sort ord : String) (per_page page : Nat) : Option (List (PyDict α)) :=
  (fetch (search_url query sort ord per_page page)).bind (optMapM filter_repo_data)

/-- The dict comprehension `{repo['id']: repo for repo in repositories}`
(api.py line 153): fold the summaries into a mapping keyed on the `id`
field, later entries overwriting earlier ones.  `none` when a summary
lacks an `id` key (Python: `KeyError`). -/
def buildMap {α : Type} [DecidableEq α] :
    List (PyDict α) → List (α × PyDict α) → Option (List (α × PyDict α))
  | [], m => some m
  | r :: rest, m =>
    match lookupA "id" r with
    | some i => buildMap rest (upsert m i r)
    | none => none

/-- `.values()` of the dedup mapping (api.py line 153). -/
def unique_repos {α : Type} [DecidableEq α] (l : List (PyDict α)) :
    Option (List (PyDict α)) :=
  (buildMap l []).map (List.map Prod.snd)

/-- The per-repository enrichment of api.py lines 158-167:
`repo['files'] = ...; repo['readme'] = ...`.  `filesOf` and `readmeOf`
abstract the two awaited fetches. -/
def attachData {α : Type} (filesOf readmeOf : PyDict α → α) (r : PyDict α) : PyDict α :=
  upsert (upsert r "files" (filesOf r)) "readme" (readmeOf r)

/-- The collection serialized to `data/crypto_repos.json` by
`fetch_crypto_repositories` (api.py lines 146-170): the deduplicated
summaries, each enriched with its files and readme. -/
def persisted_records {α : Type} [DecidableEq α] (l : List (PyDict α))
    (filesOf readmeOf : PyDict α → α) : Option (List (PyDict α)) :=
  (unique_repos l).map (List.map (attachData filesOf readmeOf))

/-- The last summary in `l` whose `id` field equals `i` (the value a
Python dict holds for key `i` after inserting all of `l` in order). -/
def lastWithId {α : Type} [DecidableEq α] (l : List (PyDict α)) (i : α) :
    Option (PyDict α) :=
  match l with
  | [] => none
  | r :: rest =>
    match lastWithId rest i with
    | some t => some t
    | none => if lookupA "id" r = some i then some r else none

/-- Does `pat` occur at the very front of `l`? -/
def matchesAt : List Char → List Char → Bool
  | [], _ => true
  | _ :: _, [] => false
  | p :: ps, c :: cs => p = c && matchesAt ps cs

/-- The scan of CPython `str.replace(pat, rep)`, structurally recursive
on a fuel bound on the remaining length (each step consumes at least one
character, so any fuel of at least the list's length is exact): replace
every non-overlapping occurrence of `pat` by `rep`, left to right. -/
def replaceAllF (pat rep : List Char) : Nat → List Char → List Char
  | _, [] => []
  | 0, l => l
  | fuel + 1, c :: cs =>
    if matchesAt pat (c :: cs) && !pat.isEmpty then
      rep ++ replaceAllF pat rep fuel (List.drop (pat.length - 1) cs)
    else
      c :: replaceAllF pat rep fuel cs

/-- CPython `str.replace(pat, rep)` for a non-empty `pat`.  The code
only calls it with the fixed non-empty literal `"https://github.com"`,
so the empty-pattern corner of CPython is not modelled. -/
def replaceAll (pat rep l : List Char) : List Char :=
  replaceAllF pat rep l.length l

/-- `s.replace(pat, rep)` at the `String` level. -/
def pyReplace (s pat rep : String) : String :=
  String.mk (replaceAll pat.toList rep.toList s.toList)

/-- The URL rewrite of api.py lines 40 and 84:
`repo_url.replace("https://github.com", "https://api.github.com/repos")`. -/
def api_url_of (repo_url : String) : String :=
  pyReplace repo_url "https://github.com" "https://api.github.com/repos"

/-- Does `pat` occur anywhere inside `l`? -/
def occursIn (pat : List Char) : List Char → Bool
  | [] => matchesAt pat []
  | c :: cs => matchesAt pat (c :: cs) || occursIn pat cs

/-- Modelled from the spec: "Rewrites a repository's user-facing URL into
the corresponding API URL (fixed prefix substitution)", read as the claim
words it: only a leading occurrence of `https://github.com` is rewritten
and the rest of the URL is preserved unchanged. -/
def specLeadingSubst (url : String) : String :=
  if matchesAt "https://github.com".toList url.toList then
    String.mk ("https://api.github.com/repos".toList ++
      List.drop "https://github.com".length url.toList)
  else url

/-- The decoded metadata object of `GET https://api.github.com/repos/...`,
restricted to the field the code reads: `default_branch` is `none` when
the response object lacks that key. -/
structure RepoMeta where
  default_branch : Option String
deriving DecidableEq, Repr

/-- `fetch_default_branch` (api.py lines 83-88).  `fetchMeta` abstracts
`self.fetch`: it maps the request URL to the decoded metadata, or `none`
for a non-200 response. -/
def fetch_default_branch (fetchMeta : String → Option RepoMeta) (repo_url : String) :
    String :=
  match fetchMeta (api_url_of repo_url) with
  | some repo_data => repo_data.default_branch.getD "master"
  | none => "master"

/-- One entry of the decoded contents listing, restricted to the fields
the code reads.  `typ` is the entry's `type` field. -/
structure ContentItem where
  typ : String
  name : String
  path : String
  html_url : String
  git_url : String
deriving DecidableEq, Repr

/-- One element of the `files` list built by `fetch_repository_files`. -/
structure FileEntry where
  name : String
  path : String
  url : String
  last_updated : String
deriving DecidableEq, Repr

/-- The contents URL built in `fetch_repository_files` (api.py lines
40-43). -/
def contents_url_of (fetchMeta : String → Option RepoMeta) (repo_url : String) :
    String :=
  api_url_of repo_url ++ "/contents?ref=" ++ fetch_default_branch fetchMeta repo_url

/-- The dict literal of api.py lines 50-55: the projection of a contents
entry to a file record (`last_updated` is populated from `git_url`). -/
def fileEntryOfItem (item : ContentItem) : FileEntry :=
  { name := item.name, path := item.path, url := item.html_url,
    last_updated := item.git_url }

/-- `fetch_repository_files` (api.py lines 35-59).  `fetchContents`
abstracts `self.fetch` on the contents URL: the decoded listing, or
`none` for a non-200 response.  The source guards the success branch
with `if contents:`, which is False both for `None` and for an empty
list. -/
def fetch_repository_files (fetchMeta : String → Option RepoMeta)
    (fetchContents : String → Option (List ContentItem)) (repo_url : String) :
    Option (List FileEntry) :=
  match fetchContents (contents_url_of fetchMeta repo_url) with
  | some contents =>
    if contents.isEmpty then none
    else some (contents.filterMap (fun item =>
      if item.typ = "file" then some (fileEntryOfItem item) else none))
  | none => none

/-- Python `s.split(sep)` for a one-character separator, over the
character list. -/
def splitOnChar (sep : Char) : List Char → List (List Char)
  | [] => [[]]
  | c :: cs =>
    match splitOnChar sep cs with
    | [] => [[]]
    | g :: gs => if c = sep then [] :: g :: gs else (c :: g) :: gs

/-- `repo_url.split('/')` (api.py line 94). -/
def pySplit (sep : Char) (s : String) : List String :=
  (splitOnChar sep s.toList).map String.mk

/-- The candidate basenames tried by `fetch_readme` (api.py line 91). -/
def readme_filenames : List String := ["readme", "README", "Readme"]

/-- The raw-content URL built in `fetch_readme` (api.py line 103). -/
def readme_url (owner name branch fn : String) : String :=
  "https://raw.githubusercontent.com/" ++ owner ++ "/" ++ name ++ "/" ++
    branch ++ "/" ++ fn ++ ".md"

/-- The three candidate URLs `fetch_readme` may request, in order:
owner and name are the last two `/`-separated segments of `repo_url`
(api.py lines 94-96; a URL with fewer than two segments would raise
`IndexError` in the source and is not reachable from well-formed
repository URLs). -/
def readme_candidate_urls (fetchMeta : String → Option RepoMeta) (repo_url : String) :
    List String :=
  let parts := pySplit '/' repo_url
  let owner := (parts.dropLast.getLast?).getD ""
  let name := (parts.getLast?).getD ""
  let branch := fetch_default_branch fetchMeta repo_url
  readme_filenames.map (fun fn => readme_url owner name branch fn)

/-- The candidate loop of `fetch_readme` (api.py lines 101-115).  `resp`
maps a URL to the status and text of its HTTP response.  Returns the
result together with the list of URLs actually requested: stop with the
body on a 200, skip to the next candidate on a 404, stop with `None` on
anything else, and fall through to `None` when the candidates run out. -/
def tryReadmeUrls (resp : String → Nat × String) : List String → Option String × List String
  | [] => (none, [])
  | u :: rest =>
    if (resp u).1 = 200 then (some (resp u).2, [u])
    else if (resp u).1 = 404 then
      ((tryReadmeUrls resp rest).1, u :: (tryReadmeUrls resp rest).2)
    else (none, [u])

/-- `fetch_readme` (api.py lines 90-115), instrumented with the list of
URLs it requested. -/
def fetch_readme (resp : String → Nat × String) (fetchMeta : String → Option RepoMeta)
    (repo_url : String) : Option String × List String :=
  tryReadmeUrls resp (readme_candidate_urls fetchMeta repo_url)

/-- A JSON value, the abstract form of what `json.dump` writes to
`data/crypto_repos.json` and `json.load` reads back. -/
inductive JVal where
  | null : JVal
  | bool : Bool → JVal
  | num : Int → JVal
  | str : String → JVal
  | arr : List JVal → JVal
  | obj : List (String × JVal) → JVal

/-- One fully assembled output record, with the spec's modeled fields:
the seven summary fields plus `files` and `readme` (api.py lines
158-167). -/
structure RepositoryRecord where
  id : Int
  name : String
  full_name : String
  html_url : String
  description : Option String
  updated_at : String
  language : Option String
  files : Option (List FileEntry)
  readme : Option String
deriving DecidableEq, Repr

/-- A nullable string as JSON. -/
def jstrOpt : Option String → JVal
  | none => JVal.null
  | some s => JVal.str s

/-- A file record as JSON, keys in the order of the dict literal at
api.py lines 50-55. -/
def encodeFileEntry (f : FileEntry) : JVal :=
  JVal.obj [ ("name", JVal.str f.name), ("path", JVal.str f.path),
             ("url", JVal.str f.url), ("last_updated", JVal.str f.last_updated)]

/-- The nullable `files` list as JSON. -/
def encodeFiles : Option (List FileEntry) → JVal
  | none => JVal.null
  | some fs => JVal.arr (fs.map encodeFileEntry)

/-- One output record as JSON, keys in dict insertion order: the seven
summary keys of `filter_repo_data`, then `files`, then `readme`. -/
def encodeRecord (r : RepositoryRecord) : JVal :=
  JVal.obj [ ("id", JVal.num r.id), ("name", JVal.str r.name),
             ("full_name", JVal.str r.full_name), ("html_url", JVal.str r.html_url),
             ("description", jstrOpt r.description), ("updated_at", JVal.str r.updated_at),
             ("language", jstrOpt r.language), ("files", encodeFiles r.files),
             ("readme", jstrOpt r.readme)]

/-- The whole persisted collection as JSON (api.py lines 169-170). -/
def encodeRecords (rs : List RepositoryRecord) : JVal :=
  JVal.arr (rs.map encodeRecord)

/-- Read an integer field back from JSON. -/
def asInt : JVal → Option Int
  | JVal.num n => some n
  | _ => none

/-- Read a string field back from JSON. -/
def asStr : JVal → Option String
  | JVal.str s => some s
  | _ => none

/-- Read a nullable string field back from JSON. -/
def asOptStr : JVal → Option (Option String)
  | JVal.null => some none
  | JVal.str s => some (some s)
  | _ => none

/-- Parse one file record back from JSON. -/
def decodeFileEntry : JVal → Option FileEntry
  | JVal.obj kvs => do
    let n ← (lookupA "name" kvs).bind asStr
    let p ← (lookupA "path" kvs).bind asStr
    let u ← (lookupA "url" kvs).bind asStr
    let lu ← (lookupA "last_updated" kvs).bind asStr
    pure { name := n, path := p, url := u, last_updated := lu }
  | _ => none

/-- Parse the nullable `files` list back from JSON. -/
def decodeFiles : JVal → Option (Option (List FileEntry))
  | JVal.null => some none
  | JVal.arr l => (optMapM decodeFileEntry l).map some
  | _ => none

/-- Parse one output record back from JSON. -/
def decodeRecord : JVal → Option RepositoryRecord
  | JVal.obj kvs => do
    let i ← (lookupA "id" kvs).bind asInt
    let n ← (lookupA "name" kvs).bind asStr
    let fn ← (lookupA "full_name" kvs).bind asStr
    let hu ← (lookupA "html_url" kvs).bind asStr
    let d ← (lookupA "description" kvs).bind asOptStr
    let ua ← (lookupA "updated_at" kvs).bind asStr
    let lg ← (lookupA "language" kvs).bind asOptStr
    let fs ← (lookupA "files" kvs).bind decodeFiles
    let rd ← (lookupA "readme" kvs).bind asOptStr
    pure { id := i, name := n, full_name := fn, html_url := hu, description := d,
           updated_at := ua, language := lg, files := fs, readme := rd }
  | _ => none

/-- Parse the whole persisted collection back from JSON. -/
def decodeRecords : JVal → Option (List RepositoryRecord)
  | JVal.arr l => optMapM decodeRecord l
  | _ => none

/-- A network event: call `i` is issued, or its response arrives. -/
inductive Ev where
  | start : Nat → Ev
  | finish : Nat → Ev
deriving DecidableEq, Repr

/-- One statement of the orchestration body (api.py lines 147-167):
calling an async function builds a bare coroutine object (`create`),
`asyncio.ensure_future`/`create_task` would additionally schedule it
(`spawn` — present in the model so that concurrency is expressible, but
never used by this program), and `await` drives a coroutine to
completion (`awaitC`). -/
inductive MInstr where
  | create : Nat → MInstr
  | spawn : Nat → MInstr
  | awaitC : Nat → MInstr
deriving DecidableEq, Repr

/-- Where the main control flow stands: between statements, between the
network calls of an awaited coroutine, or suspended on network call `i`
of the awaited coroutine. -/
inductive MainSt where
  | idle : MainSt
  | running : List Nat → MainSt
  | calling : Nat → List Nat → MainSt
deriving DecidableEq, Repr

/-- A spawned task: its remaining network calls and its in-flight call,
if any. -/
structure TaskSt where
  rem : List Nat
  cur : Option Nat
deriving DecidableEq, Repr

/-- An event-loop configuration: the remaining orchestration statements,
the state of the main control flow, and the spawned tasks. -/
structure LoopSt where
  prog : List MInstr
  main : MainSt
  tasks : List TaskSt
deriving Repr

/-- One scheduler transition, labelled with the network event it emits,
if any.  A coroutine is a list of network-call identifiers (its body)
indexed by the environment `bo`.  A bare `create` runs nothing; awaited
coroutines issue their calls one at a time; spawned tasks may issue and
complete their calls at any step, so two calls can be in flight at once
only through a spawned task. -/
inductive SchedStep (bo : Nat → List Nat) : LoopSt → Option Ev → LoopSt → Prop where
  | createCo (c : Nat) (p : List MInstr) (ts : List TaskSt) :
      SchedStep bo ⟨MInstr.create c :: p, MainSt.idle, ts⟩ none ⟨p, MainSt.idle, ts⟩
  | spawnTask (c : Nat) (p : List MInstr) (ts : List TaskSt) :
      SchedStep bo ⟨MInstr.spawn c :: p, MainSt.idle, ts⟩ none
        ⟨p, MainSt.idle, ⟨bo c, none⟩ :: ts⟩
  | beginAwait (c : Nat) (p : List MInstr) (ts : List TaskSt) :
      SchedStep bo ⟨MInstr.awaitC c :: p, MainSt.idle, ts⟩ none
        ⟨p, MainSt.running (bo c), ts⟩
  | mainCall (i : Nat) (rem : List Nat) (p : List MInstr) (ts : List TaskSt) :
      SchedStep bo ⟨p, MainSt.running (i :: rem), ts⟩ (some (Ev.start i))
        ⟨p, MainSt.calling i rem, ts⟩
  | mainRet (i : Nat) (rem : List Nat) (p : List MInstr) (ts : List TaskSt) :
      SchedStep bo ⟨p, MainSt.calling i rem, ts⟩ (some (Ev.finish i))
        ⟨p, MainSt.running rem, ts⟩
  | endAwait (p : List MInstr) (ts : List TaskSt) :
      SchedStep bo ⟨p, MainSt.running [], ts⟩ none ⟨p, MainSt.idle, ts⟩
  | taskCall (i : Nat) (rem : List Nat) (pre post : List TaskSt) (p : List MInstr)
      (m : MainSt) :
      SchedStep bo ⟨p, m, pre ++ ⟨i :: rem, none⟩ :: post⟩ (some (Ev.start i))
        ⟨p, m, pre ++ ⟨rem, some i⟩ :: post⟩
  | taskRet (i : Nat) (rem : List Nat) (pre post : List TaskSt) (p : List MInstr)
      (m : MainSt) :
      SchedStep bo ⟨p, m, pre ++ ⟨rem, some i⟩ :: post⟩ (some (Ev.finish i))
        ⟨p, m, pre ++ ⟨rem, none⟩ :: post⟩

/-- Prepend an optional event to a trace. -/
def consEv : Option Ev → List Ev → List Ev
  | none, tr => tr
  | some e, tr => e :: tr

/-- A finite scheduler execution, collecting the trace of network
events. -/
inductive SchedRun (bo : Nat → List Nat) : LoopSt → List Ev → LoopSt → Prop where
  | done (s : LoopSt) : SchedRun bo s [] s
  | more {s s' s'' : LoopSt} {e : Option Ev} {tr : List Ev} :
      SchedStep bo s e s' → SchedRun bo s' tr s'' → SchedRun bo s (consEv e tr) s''

/-- A trace in which no two network calls are ever in flight at once:
calls open and close strictly one at a time (a final still-open call is
allowed, for executions observed mid-flight). -/
def serializedB : List Ev → Bool
  | [] => true
  | Ev.finish _ :: _ => false
  | Ev.start _ :: [] => true
  | Ev.start _ :: Ev.start _ :: _ => false
  | Ev.start i :: Ev.finish j :: rest => i == j && serializedB rest

/-- No statement of the program schedules a concurrent task. -/
def isSpawnFree (p : List MInstr) : Bool :=
  p.all (fun ins =>
    match ins with
    | MInstr.spawn _ => false
    | _ => true)

/-- The orchestration body of `fetch_crypto_repositories` (api.py lines
147-167) as scheduler statements: per query, build the search coroutine
and await it (lines 148-149); per unique repository, build the files
coroutine and the readme coroutine, then await the first, then await
the second (lines 159-163).  No statement spawns a task. -/
def collectorProg (searchCos : List Nat) (repoCos : List (Nat × Nat)) : List MInstr :=
  (searchCos.map (fun c => [MInstr.create c, MInstr.awaitC c])).flatten ++
    (repoCos.map (fun rc =>
      [MInstr.create rc.1, MInstr.create rc.2,
       MInstr.awaitC rc.1, MInstr.awaitC rc.2])).flatten

/-- The trace shape an execution can still produce from a given main
state: serialized, except that when the main flow is suspended on call
`i` the trace must first close `i`. -/
def traceOK : MainSt → List Ev → Prop
  | MainSt.calling i _, tr =>
      tr = [] ∨ ∃ tr', tr = Ev.finish i :: tr' ∧ serializedB tr' = true
  | _, tr => serializedB tr = true

/-- Claim C4: for every input URL, `fetch_default_branch` returns the
literal string `"master"` when the repository-metadata fetch returns
null, rather than propagating an error. -/
theorem fetch_default_branch_soft_fallback (fetchMeta : String → Option RepoMeta)
    (repo_url : String) (h : fetchMeta (api_url_of repo_url) = none) :
    fetch_default_branch fetchMeta repo_url = "master" := by
  unfold fetch_default_branch
  rw [h]

/-- Witness for claim C4 at a concrete URL and an always-failing fetch. -/
theorem fetch_default_branch_soft_fallback_witness :
    fetch_default_branch (fun _ => none) "https://github.com/bitcoin/bitcoin" = "master" :=
  fetch_default_branch_soft_fallback (fun _ => none) "https://github.com/bitcoin/bitcoin" rfl

/-- Claim C10: when the contents-listing fetch succeeds but returns an
empty list, `fetch_repository_files` returns null, not an empty
sequence, because the success branch is guarded by truthiness of the
listing. -/
theorem fetch_repository_files_empty_listing_null
    (fetchMeta : String → Option RepoMeta)
    (fetchContents : String → Option (List ContentItem)) (repo_url : String)
    (h : fetchContents (contents_url_of fetchMeta repo_url) = some []) :
    fetch_repository_files fetchMeta fetchContents repo_url = none := by
  unfold fetch_repository_files
  rw [h]
  rfl

/-- Witness for claim C10 at a concrete URL, a failing metadata fetch
and a contents fetch that succeeds with an empty listing. -/
theorem fetch_repository_files_empty_listing_null_witness :
    fetch_repository_files (fun _ => none) (fun _ => some []) "https://github.com/a/b" = none :=
  fetch_repository_files_empty_listing_null (fun _ => none) (fun _ => some [])
    "https://github.com/a/b" rfl

/-- Counterexample to claim C6 as stated: on the non-null empty contents
listing, `fetch_repository_files` does not return the (empty) list of
projected file entries — it returns null instead. -/
theorem fetch_repository_files_empty_listing_cex :
    fetch_repository_files (fun _ => none) (fun _ => some []) "https://github.com/a/b" ≠
      some (List.filterMap (fun item =>
        if item.typ = "file" then some (fileEntryOfItem item) else none)
        ([] : List ContentItem)) := by
  decide

/-- Claim C6 (amended: for every non-null and NON-EMPTY contents
listing): `fetch_repository_files` keeps exactly the entries of type
`"file"`, in order, each projected to a `FileEntry` whose `name`,
`path` and `url` come from the entry and whose `last_updated` field is
the entry's `git_url`. -/
theorem fetch_repository_files_keeps_file_entries
    (fetchMeta : String → Option RepoMeta)
    (fetchContents : String → Option (List ContentItem)) (repo_url : String)
    (contents : List ContentItem)
    (h : fetchContents (contents_url_of fetchMeta repo_url) = some contents)
    (hne : contents ≠ []) :
    fetch_repository_files fetchMeta fetchContents repo_url =
      some (contents.filterMap (fun item =>
        if item.typ = "file" then some (fileEntryOfItem item) else none)) := by
  unfold fetch_repository_files
  rw [h]
  simp [List.isEmpty_iff, hne]

/-- Witness for the amended claim C6: a two-entry listing with one
directory and one file keeps exactly the file, with `last_updated`
populated from `git_url`. -/
theorem fetch_repository_files_keeps_file_entries_witness :
    fetch_repository_files (fun _ => none)
      (fun _ => some [ ⟨"dir", "docs", "docs", "hd", "gd"⟩,
                       ⟨"file", "a.py", "src/a.py", "hu", "gu"⟩])
      "https://github.com/a/b" =
      some [ { name := "a.py", path := "src/a.py", url := "hu", last_updated := "gu" }] := by
  have := fetch_repository_files_keeps_file_entries (fun _ => none)
    (fun _ => some [ ⟨"dir", "docs", "docs", "hd", "gd"⟩,
                     ⟨"file", "a.py", "src/a.py", "hu", "gu"⟩])
    "https://github.com/a/b"
    [ ⟨"dir", "docs", "docs", "hd", "gd"⟩, ⟨"file", "a.py", "src/a.py", "hu", "gu"⟩]
    rfl (by decide)
  rw [this]
  decide

/-- Claim C5: the projection of a raw search-result item (which may
carry extra unmodeled fields) produces a dict containing exactly the
seven summary fields, in order, with values copied from the item. -/
theorem filter_repo_data_exact_seven_fields {α : Type} (repo : PyDict α)
    (i n fn hu d ua lg : α)
    (hi : lookupA "id" repo = some i) (hn : lookupA "name" repo = some n)
    (hfn : lookupA "full_name" repo = some fn)
    (hhu : lookupA "html_url" repo = some hu)
    (hd : lookupA "description" repo = some d)
    (hua : lookupA "updated_at" repo = some ua)
    (hlg : lookupA "language" repo = some lg) :
    filter_repo_data repo =
      some [ ("id", i), ("name", n), ("full_name", fn), ("html_url", hu),
             ("description", d), ("updated_at", ua), ("language", lg)] := by
  unfold filter_repo_data
  rw [hi, hn, hfn, hhu, hd, hua, hlg]
  rfl

/-- Behaviour of the readme candidate loop over any candidate list:
either some candidate answers 200 after a (possibly empty) run of 404s,
and its body is returned with nothing after it requested; or some
candidate answers neither 200 nor 404 after a run of 404s, and the
lookup aborts with nothing after it requested; or every candidate
answers 404 and the lookup returns nothing after requesting them all. -/
theorem tryReadmeUrls_trichotomy (resp : String → Nat × String) :
    ∀ us : List String,
      (∃ pre c post, us = pre ++ c :: post ∧ (∀ d ∈ pre, (resp d).1 = 404) ∧
        (resp c).1 = 200 ∧ tryReadmeUrls resp us = (some (resp c).2, pre ++ [c]))
      ∨ (∃ pre c post, us = pre ++ c :: post ∧ (∀ d ∈ pre, (resp d).1 = 404) ∧
        (resp c).1 ≠ 200 ∧ (resp c).1 ≠ 404 ∧
        tryReadmeUrls resp us = (none, pre ++ [c]))
      ∨ ((∀ d ∈ us, (resp d).1 = 404) ∧ tryReadmeUrls resp us = (none, us)) := by
  intro us
  induction us with
  | nil =>
    right; right
    exact ⟨by simp, rfl⟩
  | cons u rest ih =>
    by_cases h200 : (resp u).1 = 200
    · left
      exact ⟨[], u, rest, rfl, by simp, h200, by simp [tryReadmeUrls, h200]⟩
    · by_cases h404 : (resp u).1 = 404
      · rcases ih with ⟨pre, c, post, hus, hpre, hc, heq⟩ |
          ⟨pre, c, post, hus, hpre, hc1, hc2, heq⟩ | ⟨hall, heq⟩
        · left
          refine ⟨u :: pre, c, post, by rw [hus]; rfl, ?_, hc, ?_⟩
          · intro d hd
            rcases List.mem_cons.mp hd with h | h
            · rw [h]; exact h404
            · exact hpre d h
          · simp [tryReadmeUrls, h200, h404, heq]
        · right; left
          refine ⟨u :: pre, c, post, by rw [hus]; rfl, ?_, hc1, hc2, ?_⟩
          · intro d hd
            rcases List.mem_cons.mp hd with h | h
            · rw [h]; exact h404
            · exact hpre d h
          · simp [tryReadmeUrls, h200, h404, heq]
        · right; right
          refine ⟨?_, ?_⟩
          · intro d hd
            rcases List.mem_cons.mp hd with h | h
            · rw [h]; exact h404
            · exact hall d h
          · simp [tryReadmeUrls, h200, h404, heq]
      · right; left
        exact ⟨[], u, rest, rfl, by simp, h200, h404, by simp [tryReadmeUrls, h200, h404]⟩

/-- Claim C2: `fetch_readme` walks its fixed candidate URL list in
order and returns the body of the first candidate answered 200,
continuing past candidates answered 404; a candidate answered with any
other status makes it return null immediately, with no later candidate
requested; and when every candidate answers 404 it returns null after
requesting them all.  The second component of `fetch_readme` is the
list of URLs actually requested. -/
theorem fetch_readme_first_200_wins (resp : String → Nat × String)
    (fetchMeta : String → Option RepoMeta) (repo_url : String) :
    (∃ pre c post, readme_candidate_urls fetchMeta repo_url = pre ++ c :: post ∧
      (∀ d ∈ pre, (resp d).1 = 404) ∧ (resp c).1 = 200 ∧
      fetch_readme resp fetchMeta repo_url = (some (resp c).2, pre ++ [c]))
    ∨ (∃ pre c post, readme_candidate_urls fetchMeta repo_url = pre ++ c :: post ∧
      (∀ d ∈ pre, (resp d).1 = 404) ∧ (resp c).1 ≠ 200 ∧ (resp c).1 ≠ 404 ∧
      fetch_readme resp fetchMeta repo_url = (none, pre ++ [c]))
    ∨ ((∀ d ∈ readme_candidate_urls fetchMeta repo_url, (resp d).1 = 404) ∧
      fetch_readme resp fetchMeta repo_url =
        (none, readme_candidate_urls fetchMeta repo_url)) :=
  tryReadmeUrls_trichotomy resp (readme_candidate_urls fetchMeta repo_url)

/-- The search page loop, run over a page split `pre ++ p :: post` where
every page of `pre` fetches and projects successfully and page `p`
fetches null: it returns exactly the summaries collected from `pre`,
and the only URLs requested are those of `pre` and of `p` — no page of
`post` is ever fetched. -/
theorem searchLoop_stops_at_failure {α : Type}
    (fetch : String → Option (List (PyDict α))) (q s o : String) (pp : Nat) :
    ∀ (pre : List Nat) (p : Nat) (post : List Nat) (pss : List (List (PyDict α))),
      optMapM (pageProj fetch q s o pp) pre = some pss →
      fetch (search_url q s o pp p) = none →
      searchLoop fetch q s o pp (pre ++ p :: post) =
        (some pss.flatten, (pre ++ [p]).map (search_url q s o pp)) := by
  intro pre
  induction pre with
  | nil =>
    intro p post pss hpre hp
    have hpss : pss = [] := by
      simpa [optMapM] using hpre.symm
    subst hpss
    simp [searchLoop, hp]
  | cons x pre' ih =>
    intro p post pss hpre hp
    rcases hfx : fetch (search_url q s o pp x) with _ | items
    · simp [optMapM, pageProj, hfx] at hpre
    · rcases hproj : optMapM (filter_repo_data (α := α)) items with _ | ps0
      · simp [optMapM, pageProj, hfx, hproj] at hpre
      · rcases hrest : optMapM (pageProj fetch q s o pp) pre' with _ | pss'
        · simp [optMapM, pageProj, hfx, hproj, hrest] at hpre
        · have hpss : pss = ps0 :: pss' := by
            have := hpre
            simp [optMapM, pageProj, hfx, hproj, hrest] at this
            exact this.symm
          subst hpss
          have := ih p post pss' hrest hp
          simp [searchLoop, hfx, hproj, this]

/-- Claim C3: `search_github_repositories` walks pages `1..num_pages`
in order and, as soon as one page fetch returns null, returns the
summaries collected from the earlier pages; the URLs requested are
exactly those of the earlier pages and of the failed page, so the fetch
function is never called for any later page. -/
theorem search_stops_at_first_null_page {α : Type}
    (fetch : String → Option (List (PyDict α))) (q s o : String) (pp num_pages : Nat)
    (pre : List Nat) (p : Nat) (post : List Nat) (pss : List (List (PyDict α)))
    (hsplit : List.range' 1 num_pages = pre ++ p :: post)
    (hpre : optMapM (pageProj fetch q s o pp) pre = some pss)
    (hp : fetch (search_url q s o pp p) = none) :
    search_github_repositories fetch q s o pp num_pages =
      (some pss.flatten, (pre ++ [p]).map (search_url q s o pp)) := by
  unfold search_github_repositories
  rw [hsplit]
  exact searchLoop_stops_at_failure fetch q s o pp pre p post pss hpre hp

/-- Witness for claim C3: with three requested pages where page 1
succeeds with one item and page 2 fetches null, the search returns the
projected page-1 summaries and requests only pages 1 and 2. -/
theorem search_stops_at_first_null_page_witness :
    search_github_repositories
      (fun u => if u = search_url "cryptocurrency" "updated" "asc" 10 1 then
        some [ [ ("id", JAtom.num 7), ("name", JAtom.str "n"),
                 ("full_name", JAtom.str "o/n"), ("html_url", JAtom.str "h"),
                 ("description", JAtom.null), ("updated_at", JAtom.str "t"),
                 ("language", JAtom.null), ("stargazers_count", JAtom.num 3)]]
        else none)
      "cryptocurrency" "updated" "asc" 10 3 =
      (some [ [ ("id", JAtom.num 7), ("name", JAtom.str "n"),
                ("full_name", JAtom.str "o/n"), ("html_url", JAtom.str "h"),
                ("description", JAtom.null), ("updated_at", JAtom.str "t"),
                ("language", JAtom.null)]],
       [search_url "cryptocurrency" "updated" "asc" 10 1,
        search_url "cryptocurrency" "updated" "asc" 10 2]) := by
  have := search_stops_at_first_null_page
    (fun u => if u = search_url "cryptocurrency" "updated" "asc" 10 1 then
      some [ [ ("id", JAtom.num 7), ("name", JAtom.str "n"),
               ("full_name", JAtom.str "o/n"), ("html_url", JAtom.str "h"),
               ("description", JAtom.null), ("updated_at", JAtom.str "t"),
               ("language", JAtom.null), ("stargazers_count", JAtom.num 3)]]
      else none)
    "cryptocurrency" "updated" "asc" 10 3 [1] 2 [3]
    [ [ [ ("id", JAtom.num 7), ("name", JAtom.str "n"),
          ("full_name", JAtom.str "o/n"), ("html_url", JAtom.str "h"),
          ("description", JAtom.null), ("updated_at", JAtom.str "t"),
          ("language", JAtom.null)]]]
    (by decide) (by decide) (by decide)
  rw [this]
  decide

/-- Witness for claim C5: an item carrying the extra field
`stargazers_count` projects to exactly the seven summary fields. -/
theorem filter_repo_data_exact_seven_fields_witness :
    filter_repo_data
      [ ("id", JAtom.num 7), ("stargazers_count", JAtom.num 42),
        ("name", JAtom.str "n"), ("full_name", JAtom.str "o/n"),
        ("html_url", JAtom.str "https://github.com/o/n"),
        ("description", JAtom.null), ("updated_at", JAtom.str "t"),
        ("language", JAtom.str "Python")] =
      some [ ("id", JAtom.num 7), ("name", JAtom.str "n"),
             ("full_name", JAtom.str "o/n"),
             ("html_url", JAtom.str "https://github.com/o/n"),
             ("description", JAtom.null), ("updated_at", JAtom.str "t"),
             ("language", JAtom.str "Python")] :=
  filter_repo_data_exact_seven_fields _ _ _ _ _ _ _ _
    (by decide) (by decide) (by decide) (by decide) (by decide) (by decide) (by decide)


/-- A single file record survives the JSON round trip. -/
theorem decodeFileEntry_encodeFileEntry (f : FileEntry) :
    decodeFileEntry (encodeFileEntry f) = some f := rfl

/-- Mapping an encoder and then effectfully mapping its decoder is the
identity whenever the decoder inverts the encoder elementwise. -/
theorem optMapM_roundtrip {α β : Type} (f : α → β) (g : β → Option α)
    (h : ∀ a, g (f a) = some a) : ∀ l : List α, optMapM g (l.map f) = some l := by
  intro l
  induction l with
  | nil => rfl
  | cons a rest ih => simp [optMapM, h, ih]

/-- The nullable file list survives the JSON round trip. -/
theorem decodeFiles_encodeFiles (fs : Option (List FileEntry)) :
    decodeFiles (encodeFiles fs) = some fs := by
  cases fs with
  | none => rfl
  | some l =>
    simp [encodeFiles, decodeFiles,
      optMapM_roundtrip encodeFileEntry decodeFileEntry decodeFileEntry_encodeFileEntry]

/-- A single output record survives the JSON round trip. -/
theorem decodeRecord_encodeRecord (r : RepositoryRecord) :
    decodeRecord (encodeRecord r) = some r := by
  rcases r with ⟨i, n, fn, hu, d, ua, lg, fs, rd⟩
  have hfs := decodeFiles_encodeFiles fs
  cases d <;> cases lg <;> cases rd <;>
    simp [encodeRecord, decodeRecord, lookupA, jstrOpt, asInt, asStr, asOptStr, hfs]

/-- Claim C7: serializing a list of output records to the JSON shape
written to `data/crypto_repos.json` and parsing it back yields the same
list, field for field — the persisted format is lossless for the
modeled fields. -/
theorem crypto_repos_json_roundtrip (rs : List RepositoryRecord) :
    decodeRecords (encodeRecords rs) = some rs := by
  show optMapM decodeRecord (rs.map encodeRecord) = some rs
  exact optMapM_roundtrip encodeRecord decodeRecord decodeRecord_encodeRecord rs

/-- A pattern matches at the front of anything it prefixes. -/
theorem matchesAt_append_self (pat rest : List Char) :
    matchesAt pat (pat ++ rest) = true := by
  induction pat with
  | nil => rfl
  | cons p ps ih => simp [matchesAt, ih]

/-- When the pattern occurs nowhere in the list, the replacement scan
leaves the list unchanged, whatever the fuel. -/
theorem replaceAllF_no_occurrence (pat rep : List Char) :
    ∀ (fuel : Nat) (l : List Char), occursIn pat l = false →
      replaceAllF pat rep fuel l = l := by
  intro fuel
  induction fuel with
  | zero =>
    intro l _
    cases l <;> rfl
  | succ f ih =>
    intro l h
    cases l with
    | nil => rfl
    | cons c cs =>
      rw [occursIn, Bool.or_eq_false_iff] at h
      simp [replaceAllF, h.1, ih cs h.2]

/-- Replacing a non-empty pattern in a list that starts with it and
otherwise avoids it rewrites exactly that leading occurrence. -/
theorem replaceAll_head_occurrence (pat rep rl : List Char) (hne : pat ≠ [])
    (h : occursIn pat rl = false) :
    replaceAll pat rep (pat ++ rl) = rep ++ rl := by
  cases pat with
  | nil => exact absurd rfl hne
  | cons p ps =>
    have hm : matchesAt (p :: ps) (p :: ps ++ rl) = true := matchesAt_append_self _ _
    rw [replaceAll, List.cons_append, List.length_cons, replaceAllF]
    rw [List.cons_append] at hm
    simp only [hm, List.isEmpty_cons, Bool.not_false, Bool.and_true, if_true]
    rw [show (p :: ps).length - 1 = ps.length from by simp]
    rw [List.drop_left ps rl]
    rw [replaceAllF_no_occurrence (p :: ps) rep _ rl h]

/-- Counterexample to claim C8 as stated: `str.replace` rewrites every
occurrence of `https://github.com`, not only the leading one, so on a
URL containing the prefix twice the API URL differs from the spec's
leading-occurrence substitution. -/
theorem api_url_of_not_leading_subst_cex :
    api_url_of "https://github.com/x/https://github.com" ≠
      specLeadingSubst "https://github.com/x/https://github.com" := by
  decide

/-- Claim C8 (amended): the API URL is obtained by rewriting every
occurrence of `https://github.com` to `https://api.github.com/repos`;
for a URL that starts with that prefix and contains no further
occurrence of it — every real repository URL — this coincides with the
prefix substitution the spec describes: the leading occurrence is
rewritten and the rest of the URL is preserved unchanged. -/
theorem api_url_of_rewrites_wellformed_url (rest : String)
    (h : occursIn "https://github.com".toList rest.toList = false) :
    api_url_of ("https://github.com" ++ rest) = "https://api.github.com/repos" ++ rest := by
  obtain ⟨rl⟩ := rest
  show String.mk (replaceAll "https://github.com".toList "https://api.github.com/repos".toList
    ("https://github.com".toList ++ rl)) = _
  rw [replaceAll_head_occurrence "https://github.com".toList
    "https://api.github.com/repos".toList rl (by decide) h]
  rfl

/-- Witness for the amended claim C8 at a concrete repository URL. -/
theorem api_url_of_rewrites_wellformed_url_witness :
    api_url_of ("https://github.com" ++ "/bitcoin/bitcoin") =
      "https://api.github.com/repos" ++ "/bitcoin/bitcoin" :=
  api_url_of_rewrites_wellformed_url "/bitcoin/bitcoin" (by decide)

/-- The keys of an association list after an insert: unchanged when the
key was present (in-place overwrite), extended by the key otherwise. -/
theorem upsert_map_fst {κ α : Type} [DecidableEq κ] (m : List (κ × α)) (k : κ) (v : α) :
    (upsert m k v).map Prod.fst =
      if m.any (fun p => p.1 = k) then m.map Prod.fst else m.map Prod.fst ++ [k] := by
  unfold upsert
  by_cases h : m.any (fun p => p.1 = k) = true
  · rw [if_pos h, if_pos h, List.map_map]
    apply List.map_congr_left
    intro p _
    by_cases hp : p.1 = k
    · simp [hp]
    · simp [hp]
  · rw [if_neg h, if_neg h]
    simp

/-- Inserting preserves distinctness of the keys. -/
theorem upsert_keys_nodup {κ α : Type} [DecidableEq κ] (m : List (κ × α)) (k : κ) (v : α)
    (h : (m.map Prod.fst).Nodup) : ((upsert m k v).map Prod.fst).Nodup := by
  rw [upsert_map_fst]
  by_cases hc : m.any (fun p => p.1 = k) = true
  · rw [if_pos hc]; exact h
  · rw [if_neg hc]
    have hk : k ∉ m.map Prod.fst := by
      rw [List.any_eq_true] at hc
      rw [List.mem_map]
      rintro ⟨p, hp, he⟩
      exact hc ⟨p, hp, by simp [he]⟩
    simp [List.nodup_append, h, hk]

/-- Every entry of the inserted list is the new entry or an old entry
with a different key. -/
theorem mem_upsert {κ α : Type} [DecidableEq κ] {m : List (κ × α)} {k : κ} {v : α}
    {q : κ × α} (hq : q ∈ upsert m k v) : q = (k, v) ∨ (q ∈ m ∧ q.1 ≠ k) := by
  unfold upsert at hq
  by_cases h : m.any (fun p => p.1 = k) = true
  · rw [if_pos h] at hq
    rcases List.mem_map.mp hq with ⟨p, hp, he⟩
    by_cases hk : p.1 = k
    · left
      rw [← he]
      simp [hk]
    · right
      rw [← he]
      simp only [hk, if_false]
      exact ⟨hp, hk⟩
  · rw [if_neg h] at hq
    rcases List.mem_append.mp hq with h1 | h1
    · right
      refine ⟨h1, fun he => h ?_⟩
      exact List.any_eq_true.mpr ⟨q, h1, by simp [he]⟩
    · left
      simpa using h1

/-- The inserted entry is in the inserted list. -/
theorem self_mem_upsert {κ α : Type} [DecidableEq κ] (m : List (κ × α)) (k : κ) (v : α) :
    (k, v) ∈ upsert m k v := by
  unfold upsert
  by_cases h : m.any (fun p => p.1 = k) = true
  · rw [if_pos h]
    rcases List.any_eq_true.mp h with ⟨p, hp, he⟩
    simp only [decide_eq_true_eq] at he
    exact List.mem_map.mpr ⟨p, hp, by simp [he]⟩
  · rw [if_neg h]
    simp

/-- Inserting never loses a key. -/
theorem upsert_covers {κ α : Type} [DecidableEq κ] {m : List (κ × α)} (k : κ) (v : α)
    {p : κ × α} (hp : p ∈ m) : ∃ q ∈ upsert m k v, q.1 = p.1 := by
  by_cases hk : p.1 = k
  · exact ⟨(k, v), self_mem_upsert m k v, by simp [hk]⟩
  · unfold upsert
    by_cases h : m.any (fun x => x.1 = k) = true
    · rw [if_pos h]
      refine ⟨(fun x => if x.1 = k then (k, v) else x) p, List.mem_map_of_mem _ hp, ?_⟩
      simp [hk]
    · rw [if_neg h]
      exact ⟨p, List.mem_append_left _ hp, rfl⟩

/-- Appending one summary on the right either becomes the new last
match for its own id or leaves the last match unchanged. -/
theorem lastWithId_append_single {α : Type} [DecidableEq α] (l : List (PyDict α))
    (r : PyDict α) (i : α) :
    lastWithId (l ++ [r]) i =
      if lookupA "id" r = some i then some r else lastWithId l i := by
  induction l with
  | nil => rfl
  | cons x xs ih =>
    rw [List.cons_append, lastWithId, ih]
    by_cases h : lookupA "id" r = some i
    · rw [if_pos h, if_pos h]
    · rw [if_neg h, if_neg h]
      rw [lastWithId]

/-- Looking up a different key is unaffected by an in-place overwrite. -/
theorem lookupA_map_update_ne {κ α : Type} [DecidableEq κ] (m : List (κ × α))
    (k k' : κ) (v : α) (h : k ≠ k') :
    lookupA k (m.map (fun p => if p.1 = k' then (k', v) else p)) = lookupA k m := by
  induction m with
  | nil => rfl
  | cons p rest ih =>
    by_cases hp : p.1 = k'
    · rw [List.map_cons, if_pos hp]
      rw [lookupA, lookupA, ih]
      have : ¬ k = p.1 := by rw [hp]; exact h
      rw [if_neg h, if_neg this]
    · rw [List.map_cons, if_neg hp]
      rw [lookupA, lookupA, ih]

/-- Looking up a different key is unaffected by appending an entry. -/
theorem lookupA_append_single_ne {κ α : Type} [DecidableEq κ] (m : List (κ × α))
    (k k' : κ) (v : α) (h : k ≠ k') :
    lookupA k (m ++ [(k', v)]) = lookupA k m := by
  induction m with
  | nil => simp [lookupA, h]
  | cons p rest ih =>
    rw [List.cons_append, lookupA, lookupA, ih]

/-- Looking up a different key is unaffected by a dict assignment. -/
theorem lookupA_upsert_ne {κ α : Type} [DecidableEq κ] (m : List (κ × α))
    (k k' : κ) (v : α) (h : k ≠ k') :
    lookupA k (upsert m k' v) = lookupA k m := by
  unfold upsert
  by_cases hc : m.any (fun p => p.1 = k') = true
  · rw [if_pos hc]
    exact lookupA_map_update_ne m k k' v h
  · rw [if_neg hc]
    exact lookupA_append_single_ne m k k' v h

/-- Attaching `files` and `readme` leaves the `id` field unchanged. -/
theorem lookupA_attachData_id {α : Type} (filesOf readmeOf : PyDict α → α)
    (d : PyDict α) :
    lookupA "id" (attachData filesOf readmeOf d) = lookupA "id" d := by
  unfold attachData
  rw [lookupA_upsert_ne _ _ _ _ (by decide), lookupA_upsert_ne _ _ _ _ (by decide)]

/-- The dict-comprehension fold of api.py line 153, run over the
remaining summaries `rest` from a mapping `m` built from the already
processed summaries `done`: it succeeds whenever every remaining summary
has an `id`, its keys stay distinct, every entry holds the last summary
seen with its key, and every processed summary's id is present. -/
theorem buildMap_invariant {α : Type} [DecidableEq α] :
    ∀ (rest done : List (PyDict α)) (m : List (α × PyDict α)),
      (∀ r ∈ rest, (lookupA "id" r).isSome = true) →
      (m.map Prod.fst).Nodup →
      (∀ p ∈ m, lookupA "id" p.2 = some p.1) →
      (∀ p ∈ m, lastWithId done p.1 = some p.2) →
      (∀ r ∈ done, ∀ i, lookupA "id" r = some i → ∃ p ∈ m, p.1 = i) →
      ∃ m', buildMap rest m = some m' ∧
        (m'.map Prod.fst).Nodup ∧
        (∀ p ∈ m', lookupA "id" p.2 = some p.1) ∧
        (∀ p ∈ m', lastWithId (done ++ rest) p.1 = some p.2) ∧
        (∀ r ∈ done ++ rest, ∀ i, lookupA "id" r = some i → ∃ p ∈ m', p.1 = i) := by
  intro rest
  induction rest with
  | nil =>
    intro done m _ h1 h2 h3 h4
    exact ⟨m, rfl, h1, h2, by simpa using h3, by simpa using h4⟩
  | cons r rest ih =>
    intro done m hall h1 h2 h3 h4
    obtain ⟨i, hi⟩ : ∃ i, lookupA "id" r = some i :=
      Option.isSome_iff_exists.mp (hall r (List.mem_cons_self r rest))
    have hstep : buildMap (r :: rest) m = buildMap rest (upsert m i r) := by
      rw [buildMap, hi]
    have hrec := ih (done ++ [r]) (upsert m i r)
      (fun x hx => hall x (List.mem_cons_of_mem r hx))
      (upsert_keys_nodup m i r h1)
      (fun p hp => by
        rcases mem_upsert hp with he | ⟨hpm, _⟩
        · rw [he]; exact hi
        · exact h2 p hpm)
      (fun p hp => by
        rw [lastWithId_append_single]
        rcases mem_upsert hp with he | ⟨hpm, hpk⟩
        · rw [he]
          rw [if_pos (show lookupA "id" r = some ((i, r) : α × PyDict α).1 from hi)]
        · have hne : ¬ lookupA "id" r = some p.1 := by
            rw [hi]
            intro hc
            exact hpk (Option.some.inj hc).symm
          rw [if_neg hne]
          exact h3 p hpm)
      (fun x hx j hj => by
        rcases List.mem_append.mp hx with hxd | hxr
        · obtain ⟨p, hpm, hpk⟩ := h4 x hxd j hj
          obtain ⟨q, hqm, hqk⟩ := upsert_covers i r hpm
          exact ⟨q, hqm, by rw [hqk, hpk]⟩
        · have hx' : x = r := by simpa using hxr
          have hj' : j = i := by
            rw [hx', hi] at hj
            exact (Option.some.inj hj).symm
          rw [hj']
          exact ⟨(i, r), self_mem_upsert m i r, rfl⟩)
    obtain ⟨m', hbm, hm1, hm2, hm3, hm4⟩ := hrec
    have hshape : (done ++ [r]) ++ rest = done ++ r :: rest := by
      rw [List.append_assoc, List.singleton_append]
    refine ⟨m', by rw [hstep, hbm], hm1, hm2, ?_, ?_⟩
    · intro p hp
      have := hm3 p hp
      rwa [hshape] at this
    · intro x hx j hj
      apply hm4 x
      · rw [hshape]
        exact hx
      · exact hj

/-- Claim C1: for every list of raw summaries (each carrying an `id`),
the persisted collection holds exactly one record per unique `id`: the
dedup mapping's keys are pairwise distinct and cover every `id` seen,
the persisted collection is exactly one enriched record per mapping
entry with its `id` intact, and the summary kept for each `id` is the
last one inserted into the mapping — last write wins. -/
theorem persisted_dedup_last_write_wins {α : Type} [DecidableEq α]
    (l : List (PyDict α)) (filesOf readmeOf : PyDict α → α)
    (h : ∀ r ∈ l, (lookupA "id" r).isSome = true) :
    ∃ m, buildMap l [] = some m ∧
      persisted_records l filesOf readmeOf =
        some (m.map (fun p => attachData filesOf readmeOf p.2)) ∧
      (m.map Prod.fst).Nodup ∧
      (∀ p ∈ m, lookupA "id" (attachData filesOf readmeOf p.2) = some p.1) ∧
      (∀ p ∈ m, lastWithId l p.1 = some p.2) ∧
      (∀ r ∈ l, ∀ i, lookupA "id" r = some i → ∃ p ∈ m, p.1 = i) := by
  obtain ⟨m, hbm, h1, h2, h3, h4⟩ :=
    buildMap_invariant l [] [] h (by simp) (by simp) (by simp) (by simp)
  refine ⟨m, hbm, ?_, h1, ?_, ?_, ?_⟩
  · unfold persisted_records unique_repos
    rw [hbm]
    simp [List.map_map]
  · intro p hp
    rw [lookupA_attachData_id]
    exact h2 p hp
  · intro p hp
    have := h3 p hp
    simpa using this
  · intro r hr i hi
    exact h4 r (by simpa using hr) i hi

/-- Witness for claim C1 on three summaries of which the first and last
share `id` 1. -/
theorem persisted_dedup_last_write_wins_witness :
    ∃ m, buildMap [ [ ("id", JAtom.num 1), ("name", JAtom.str "a")],
                    [ ("id", JAtom.num 2), ("name", JAtom.str "c")],
                    [ ("id", JAtom.num 1), ("name", JAtom.str "b")]] [] = some m ∧
      persisted_records [ [ ("id", JAtom.num 1), ("name", JAtom.str "a")],
                          [ ("id", JAtom.num 2), ("name", JAtom.str "c")],
                          [ ("id", JAtom.num 1), ("name", JAtom.str "b")]]
          (fun _ => JAtom.null) (fun _ => JAtom.null) =
        some (m.map (fun p => attachData (fun _ => JAtom.null) (fun _ => JAtom.null) p.2)) ∧
      (m.map Prod.fst).Nodup ∧
      (∀ p ∈ m, lookupA "id" (attachData (fun _ => JAtom.null) (fun _ => JAtom.null) p.2) =
        some p.1) ∧
      (∀ p ∈ m, lastWithId [ [ ("id", JAtom.num 1), ("name", JAtom.str "a")],
                             [ ("id", JAtom.num 2), ("name", JAtom.str "c")],
                             [ ("id", JAtom.num 1), ("name", JAtom.str "b")]] p.1 =
        some p.2) ∧
      (∀ r ∈ [ [ ("id", JAtom.num 1), ("name", JAtom.str "a")],
               [ ("id", JAtom.num 2), ("name", JAtom.str "c")],
               [ ("id", JAtom.num 1), ("name", JAtom.str "b")]],
        ∀ i, lookupA "id" r = some i → ∃ p ∈ m, p.1 = i) :=
  persisted_dedup_last_write_wins
    [ [ ("id", JAtom.num 1), ("name", JAtom.str "a")],
      [ ("id", JAtom.num 2), ("name", JAtom.str "c")],
      [ ("id", JAtom.num 1), ("name", JAtom.str "b")]]
    (fun _ => JAtom.null) (fun _ => JAtom.null) (by decide)

/-- Dropping the first statement preserves spawn-freedom. -/
theorem isSpawnFree_tail {ins : MInstr} {p : List MInstr}
    (h : isSpawnFree (ins :: p) = true) : isSpawnFree p = true := by
  rw [isSpawnFree, List.all_cons, Bool.and_eq_true] at h
  exact h.2

/-- The modeled orchestration body contains no `spawn` statement. -/
theorem collectorProg_spawnFree (searchCos : List Nat) (repoCos : List (Nat × Nat)) :
    isSpawnFree (collectorProg searchCos repoCos) = true := by
  rw [isSpawnFree, List.all_eq_true]
  intro ins hins
  rw [collectorProg] at hins
  rcases List.mem_append.mp hins with h | h <;>
  · obtain ⟨blk, hblk, hin⟩ := List.mem_flatten.mp h
    obtain ⟨c, _, rfl⟩ := List.mem_map.mp hblk
    fin_cases hin <;> rfl

/-- Any execution of a spawn-free program with no running tasks only
produces traces allowed by the state of the main control flow: fully
serialized, or first closing the one call the main flow is suspended
on.  Spawned tasks are the only source of overlapping calls, and a
spawn-free program never acquires one. -/
theorem schedRun_traceOK (bo : Nat → List Nat) {s : LoopSt} {tr : List Ev} {s' : LoopSt}
    (h : SchedRun bo s tr s') :
    isSpawnFree s.prog = true → s.tasks = [] → traceOK s.main tr := by
  induction h with
  | done s =>
    intro _ _
    cases s.main with
    | idle => exact rfl
    | running rem => exact rfl
    | calling i rem => exact Or.inl rfl
  | more hstep hrun ih =>
    intro hfree htasks
    cases hstep with
    | createCo c p ts =>
      exact ih (isSpawnFree_tail hfree) htasks
    | spawnTask c p ts =>
      exact absurd hfree (by simp [isSpawnFree])
    | beginAwait c p ts =>
      exact ih (isSpawnFree_tail hfree) htasks
    | endAwait p ts =>
      exact ih hfree htasks
    | mainCall i rem p ts =>
      have h' := ih hfree htasks
      rcases h' with h0 | ⟨tr', he, hs⟩
      · rw [show consEv (some (Ev.start i)) _ = [Ev.start i] from by rw [h0]; rfl]
        rfl
      · rw [show consEv (some (Ev.start i)) _ = Ev.start i :: Ev.finish i :: tr' from by
          rw [he]; rfl]
        show serializedB (Ev.start i :: Ev.finish i :: tr') = true
        rw [serializedB]
        simp [hs]
    | mainRet i rem p ts =>
      exact Or.inr ⟨_, rfl, ih hfree htasks⟩
    | taskCall i rem pre post p m =>
      exact absurd htasks (by simp)
    | taskRet i rem pre post p m =>
      exact absurd htasks (by simp)

/-- Claim C9: in any execution of the modeled orchestration — which
builds its per-query and per-repository coroutines with bare `create`
and drives each with a direct `await`, never spawning a task — no two
network calls are ever in flight concurrently: the trace opens and
closes calls strictly one at a time, across searches, branch lookups,
file listings and README fetches alike. -/
theorem collector_trace_serialized (bo : Nat → List Nat) (searchCos : List Nat)
    (repoCos : List (Nat × Nat)) (tr : List Ev) (s' : LoopSt)
    (h : SchedRun bo ⟨collectorProg searchCos repoCos, MainSt.idle, []⟩ tr s') :
    serializedB tr = true :=
  schedRun_traceOK bo h (collectorProg_spawnFree searchCos repoCos) rfl

/-- Witness for claim C9: an explicit execution of the orchestration
for one repository (files coroutine 0, readme coroutine 1, each making
one network call), whose trace is serialized. -/
theorem collector_trace_serialized_witness :
    serializedB [Ev.start 0, Ev.finish 0, Ev.start 1, Ev.finish 1] = true :=
  collector_trace_serialized (fun c => [c]) [] [(0, 1)]
    [Ev.start 0, Ev.finish 0, Ev.start 1, Ev.finish 1] ⟨[], MainSt.idle, []⟩
    (SchedRun.more (SchedStep.createCo 0 [MInstr.create 1, MInstr.awaitC 0, MInstr.awaitC 1] [])
      (SchedRun.more (SchedStep.createCo 1 [MInstr.awaitC 0, MInstr.awaitC 1] [])
        (SchedRun.more (SchedStep.beginAwait 0 [MInstr.awaitC 1] [])
          (SchedRun.more (SchedStep.mainCall 0 [] [MInstr.awaitC 1] [])
            (SchedRun.more (SchedStep.mainRet 0 [] [MInstr.awaitC 1] [])
              (SchedRun.more (SchedStep.endAwait [MInstr.awaitC 1] [])
                (SchedRun.more (SchedStep.beginAwait 1 [] [])
                  (SchedRun.more (SchedStep.mainCall 1 [] [] [])
                    (SchedRun.more (SchedStep.mainRet 1 [] [] [])
                      (SchedRun.more (SchedStep.endAwait [] [])
                        (SchedRun.done ⟨[], MainSt.idle, []⟩)))))))))))
